import Mathlib

/-!
Verification of the occupancy-grid decode / projection / voxelization core
of the viz_demo repository.

The definitions below are a shallow embedding of the JavaScript source:
  - `OccupancyProcessor` embeds `interactive_occupancy_js/src/occupancyProcessor.js`
    (the ten indexing variants, `extractZSlice`, `projectMaxOccupancy`,
    `projectMeanOccupancy`, `worldZToIndex`, `indexToWorldZ`).
  - `Renderer3D` embeds the pure computational part of
    `visualizeOccupancyWithCubes` in
    `interactive_occupancy_js/src/renderers/Occupancy3DRenderer.js`
    (effective threshold and z-window, dense and bitset voxel iteration,
    voxel world placement and height banding).
  - `Loader` embeds the pure decoding branch of `loadOccupancyData`
    (the data loader with bitset support).

JavaScript numbers are modelled as exact rationals (`ℚ`); typed-array byte
values as naturals.  A JavaScript value that can be absent or non-finite
(`Number(x)` yielding `NaN`) is modelled as `Option`, with `none` standing
for "absent or not finite", matching each `Number.isFinite` guard in the
source.
-/

namespace OccupancyProcessor

/-- The `indexingMode` strings accepted by the projection functions in
`occupancyProcessor.js`; `defaultMode` is the `default:` switch branch. -/
inductive IndexingMode where
  | variant1 | variant2 | variant3 | variant4 | variant5
  | variant6 | variant7 | variant8 | variant9 | variant10
  | defaultMode
deriving DecidableEq, Repr

/-- Resolved axis counts: which of the shape dimensions `(dim0,dim1,dim2)`
plays the role of `ny`, `nx`, `nz` in each switch branch of the source. -/
structure Axes where
  ny : ℕ
  nx : ℕ
  nz : ℕ
deriving DecidableEq, Repr

/-- Axis resolution of each branch of the switch in `extractZSlice` and
`projectMaxOccupancy` (identical in those two source functions, and
identical to `projectMeanOccupancy`'s switch on the ten named variants;
`projectMeanOccupancy`'s `default:` branch differs and is modelled
separately by `resolveAxesMean`). -/
def resolveAxes (mode : IndexingMode) (gridShape : ℕ × ℕ × ℕ) : Axes :=
  let dim0 := gridShape.1
  let dim1 := gridShape.2.1
  let dim2 := gridShape.2.2
  match mode with
  | .variant1 => ⟨dim0, dim1, dim2⟩
  | .variant2 => ⟨dim1, dim0, dim2⟩
  | .variant3 => ⟨dim0, dim1, dim2⟩
  | .variant4 => ⟨dim1, dim0, dim2⟩
  | .variant5 => ⟨dim0, dim1, dim2⟩
  | .variant6 => ⟨dim1, dim2, dim0⟩
  | .variant7 => ⟨dim2, dim0, dim1⟩
  | .variant8 => ⟨dim0, dim2, dim1⟩
  | .variant9 => ⟨dim2, dim1, dim0⟩
  | .variant10 => ⟨dim1, dim0, dim2⟩
  | .defaultMode => ⟨dim0, dim1, dim2⟩

/-- The `getIndex` closure of each switch branch of `extractZSlice` and
`projectMaxOccupancy`, written with the axis counts resolved by
`resolveAxes` exactly as in the source (`projectMeanOccupancy`'s switch
agrees on the ten named variants; its different `default:` branch is
modelled by `getIndexFnMean`). -/
def getIndexFn (mode : IndexingMode) (gridShape : ℕ × ℕ × ℕ)
    (x y z : ℕ) : ℕ :=
  let a := resolveAxes mode gridShape
  match mode with
  | .variant1 => y + x * a.ny + z * a.ny * a.nx
  | .variant2 => x + y * a.nx + z * a.nx * a.ny
  | .variant3 => x + y * a.nx + z * a.nx * a.ny
  | .variant4 => y + x * a.ny + z * a.ny * a.nx
  | .variant5 => y + x * a.ny + z * a.ny * a.nx
  | .variant6 => z + y * a.nz + x * a.nz * a.ny
  | .variant7 => x + z * a.nx + y * a.nx * a.nz
  | .variant8 => y + z * a.ny + x * a.ny * a.nz
  | .variant9 => z + x * a.nz + y * a.nz * a.nx
  | .variant10 => z + y * a.nz + x * a.nz * a.ny
  | .defaultMode => y + x * a.ny + z * a.ny * a.nx

/-- Axis resolution of `projectMeanOccupancy`'s switch: its ten named
variant branches are identical to `resolveAxes`, but its `default:`
branch resolves `nx = dim0, ny = dim1, nz = dim2` (the variant10 layout,
"Default to variant10 (CORRECT)" in the source) instead of the
`ny = dim0, nx = dim1` default of the other two functions. -/
def resolveAxesMean (mode : IndexingMode) (gridShape : ℕ × ℕ × ℕ) : Axes :=
  let dim0 := gridShape.1
  let dim1 := gridShape.2.1
  let dim2 := gridShape.2.2
  match mode with
  | .defaultMode => ⟨dim1, dim0, dim2⟩
  | _ => resolveAxes mode gridShape

/-- The `getIndex` closure of `projectMeanOccupancy`'s switch: identical
to `getIndexFn` on the ten named variants, but its `default:` branch
computes the canonical `z + y*nz + x*nz*ny` mapping. -/
def getIndexFnMean (mode : IndexingMode) (gridShape : ℕ × ℕ × ℕ)
    (x y z : ℕ) : ℕ :=
  match mode with
  | .defaultMode =>
    let a := resolveAxesMean IndexingMode.defaultMode gridShape
    z + y * a.nz + x * a.nz * a.ny
  | _ => getIndexFn mode gridShape x y z

/-- `extractZSlice(occupancy, gridShape, zIndex, indexingMode)`:
`none` models the thrown range error for `zIndex >= nz` (the source also
throws on `zIndex < 0`, which cannot arise for a natural index).
In-range reads are `occupancy[volumeIdx]`, out-of-range reads push `0`. -/
def extractZSlice (occupancy : List ℚ) (gridShape : ℕ × ℕ × ℕ)
    (zIndex : ℕ) (mode : IndexingMode) : Option (List (List ℚ)) :=
  let a := resolveAxes mode gridShape
  if a.nz ≤ zIndex then none
  else some <|
    (List.range a.ny).map fun y =>
      (List.range a.nx).map fun x =>
        let volumeIdx := getIndexFn mode gridShape x y zIndex
        if volumeIdx < occupancy.length then occupancy.getD volumeIdx 0 else 0

/-- `projectMaxOccupancy(occupancy, gridShape, indexingMode)`:
per cell, `maxOcc` starts at `0` and folds `Math.max` over the z column,
skipping out-of-range reads. -/
def projectMaxOccupancy (occupancy : List ℚ) (gridShape : ℕ × ℕ × ℕ)
    (mode : IndexingMode) : List (List ℚ) :=
  let a := resolveAxes mode gridShape
  (List.range a.ny).map fun y =>
    (List.range a.nx).map fun x =>
      (List.range a.nz).foldl (fun maxOcc z =>
        let volumeIdx := getIndexFn mode gridShape x y z
        if volumeIdx < occupancy.length then max maxOcc (occupancy.getD volumeIdx 0)
        else maxOcc) 0

/-- `projectMeanOccupancy(occupancy, gridShape, indexingMode)`:
per cell, sums the z column (skipping out-of-range reads, which only log)
and divides by the resolved `nz`; its switch differs from the other two
functions only in the `default:` branch (`resolveAxesMean`,
`getIndexFnMean`). -/
def projectMeanOccupancy (occupancy : List ℚ) (gridShape : ℕ × ℕ × ℕ)
    (mode : IndexingMode) : List (List ℚ) :=
  let a := resolveAxesMean mode gridShape
  (List.range a.ny).map fun y =>
    (List.range a.nx).map fun x =>
      ((List.range a.nz).foldl (fun sum z =>
        let volumeIdx := getIndexFnMean mode gridShape x y z
        if volumeIdx < occupancy.length then sum + occupancy.getD volumeIdx 0
        else sum) 0) / (a.nz : ℚ)

/-- `worldZToIndex(worldZ, zBounds, nz)`: normalize, `Math.floor`, then
clamp into `[0, nz-1]` with `Math.max(0, Math.min(nz - 1, index))`. -/
def worldZToIndex (worldZ : ℚ) (zBounds : ℚ × ℚ) (nz : ℕ) : ℤ :=
  let zMin := zBounds.1
  let zMax := zBounds.2
  let normalized := (worldZ - zMin) / (zMax - zMin)
  let index := ⌊normalized * (nz : ℚ)⌋
  max 0 (min ((nz : ℤ) - 1) index)

/-- `indexToWorldZ(zIndex, zBounds, nz)`: center of the voxel cell. -/
def indexToWorldZ (zIndex : ℕ) (zBounds : ℚ × ℚ) (nz : ℕ) : ℚ :=
  let zMin := zBounds.1
  let zMax := zBounds.2
  let normalized := ((zIndex : ℚ) + 1/2) / (nz : ℚ)
  zMin + normalized * (zMax - zMin)

end OccupancyProcessor

namespace Renderer3D

/-- The decoded occupancy record handed to `visualizeOccupancyWithCubes`
(as produced by the loader).  `occupancy` is the dense float view,
`occupancyBits` the byte view for the bitset encoding.  `numVoxels` is
`none` when absent or not finite (the source reads it with
`Number(occupancyData.numVoxels)`). -/
structure OccupancyData where
  gridShape : ℕ × ℕ × ℕ
  boundsX : ℚ × ℚ
  boundsY : ℚ × ℚ
  boundsZ : ℚ × ℚ
  occupancy : List ℚ
  occupancyBits : List ℕ
  encoding : String
  numVoxels : Option ℕ
  bakeThreshold : Option ℚ
deriving DecidableEq, Repr

/-- Render options; each field is `none` when the corresponding
`Number(options.f)` is absent or not finite. -/
structure RenderOptions where
  threshold : Option ℚ
  zFilterMin : Option ℚ
  zFilterMax : Option ℚ
  dropTopLayers : Option ℚ
deriving DecidableEq, Repr

def nx (d : OccupancyData) : ℕ := d.gridShape.1
def ny (d : OccupancyData) : ℕ := d.gridShape.2.1
def nz (d : OccupancyData) : ℕ := d.gridShape.2.2

/-- `voxelSizeZ = (zMax - zMin) / nz`. -/
def voxelSizeZ (d : OccupancyData) : ℚ := (d.boundsZ.2 - d.boundsZ.1) / (nz d : ℚ)

/-- `voxelSizeX = (xMax - xMin) / nx`. -/
def voxelSizeX (d : OccupancyData) : ℚ := (d.boundsX.2 - d.boundsX.1) / (nx d : ℚ)

/-- `voxelSizeY = (yMax - yMin) / ny`. -/
def voxelSizeY (d : OccupancyData) : ℚ := (d.boundsY.2 - d.boundsY.1) / (ny d : ℚ)

/-- Effective probability threshold: `Number(options.threshold)`, replaced
by `0.5` when not finite, then clamped with `Math.max(0, threshold)`. -/
def effectiveThreshold (o : RenderOptions) : ℚ :=
  max 0 (o.threshold.getD (1/2))

/-- Effective z window `(zFilterMin, zFilterMax)` after defaulting, the
`dropTopLayers` adjustment, clamping to the grid's z bounds, and the
final widening step `zFilterMax = Math.min(zMax, zFilterMin + voxelSizeZ)`
applied when the clamped window came out empty or inverted. -/
def effectiveZWindow (d : OccupancyData) (o : RenderOptions) : ℚ × ℚ :=
  let zMin := d.boundsZ.1
  let zMax := d.boundsZ.2
  let defaultZFilterMin := zMin
  let defaultZFilterMax := min zMax (7/2)
  let zFilterMin0 := o.zFilterMin.getD defaultZFilterMin
  let zFilterMax0 := o.zFilterMax.getD defaultZFilterMax
  let dropTopLayers : ℤ := max 0 ⌊o.dropTopLayers.getD 0⌋
  let zFilterMax1 :=
    if 0 < dropTopLayers then zFilterMax0 - (dropTopLayers : ℚ) * voxelSizeZ d
    else zFilterMax0
  let zFilterMin1 := max zMin zFilterMin0
  let zFilterMax2 := min zMax zFilterMax1
  if zFilterMax2 ≤ zFilterMin1 then (zFilterMin1, min zMax (zFilterMin1 + voxelSizeZ d))
  else (zFilterMin1, zFilterMax2)

/-- A voxel as pushed by the `addVoxel` closure: grid index and the world
z of the cell center. -/
structure VoxelRec where
  x : ℕ
  y : ℕ
  z : ℕ
  worldZ : ℚ
deriving DecidableEq, Repr

/-- The `addVoxel` closure: computes `worldZ`, drops the voxel when it is
outside the effective z window `w`, otherwise records it. -/
def addVoxel (zMin vsz : ℚ) (w : ℚ × ℚ) (x y z : ℕ) : Option VoxelRec :=
  let worldZ := zMin + ((z : ℚ) + 1/2) * vsz
  if worldZ < w.1 ∨ w.2 < worldZ then none
  else some ⟨x, y, z, worldZ⟩

/-- The dense (`raw`) iteration: all `(x, y, z)` in lexicographic order,
linear index `z + y*nz + x*nz*ny`, skipping out-of-range reads and values
`<= threshold`. -/
def denseVoxels (occupancy : List ℚ) (nx ny nz : ℕ) (threshold : ℚ)
    (zMin vsz : ℚ) (w : ℚ × ℚ) : List VoxelRec :=
  (List.range nx).flatMap fun x =>
    (List.range ny).flatMap fun y =>
      (List.range nz).filterMap fun z =>
        let idx := z + y * nz + x * nz * ny
        if idx < occupancy.length then
          if occupancy.getD idx 0 ≤ threshold then none
          else addVoxel zMin vsz w x y z
        else none

/-- The inner bit loop over one byte, with the `break` once a set bit's
linear index reaches `numVoxels`; the second argument counts the
remaining bit positions (the source iterates `bit = 0 .. 7`). -/
def bitLoop (numVoxels byteIdx byteVal : ℕ) : ℕ → ℕ → List ℕ
  | _, 0 => []
  | bit, n + 1 =>
    if byteVal.testBit bit then
      if numVoxels ≤ byteIdx * 8 + bit then []
      else (byteIdx * 8 + bit) :: bitLoop numVoxels byteIdx byteVal (bit + 1) n
    else bitLoop numVoxels byteIdx byteVal (bit + 1) n

/-- Linear indices of the set bits visited by the byte loop (bytes equal
to `0` are skipped, and within a byte the loop breaks at `numVoxels`). -/
def bitsetSetIndices (bits : List ℕ) (numVoxels : ℕ) : List ℕ :=
  (List.range bits.length).flatMap fun byteIdx =>
    let byteVal := bits.getD byteIdx 0
    if byteVal = 0 then [] else bitLoop numVoxels byteIdx byteVal 0 8

/-- Inverse of the canonical linear mapping as used by the bitset branch:
`x = idx / xyStride`, `rem = idx - x*xyStride`, `y = rem / nz`,
`z = rem - y*nz`, with `xyStride = nz * ny`. -/
def decodeIdx (ny nz idx : ℕ) : ℕ × ℕ × ℕ :=
  let xyStride := nz * ny
  let x := idx / xyStride
  let rem := idx - x * xyStride
  let y := rem / nz
  let z := rem - y * nz
  (x, y, z)

/-- The bitset iteration: decode every visited set bit's linear index and
apply `addVoxel`. -/
def bitsetVoxels (bits : List ℕ) (numVoxels ny nz : ℕ)
    (zMin vsz : ℚ) (w : ℚ × ℚ) : List VoxelRec :=
  (bitsetSetIndices bits numVoxels).filterMap fun idx =>
    let t := decodeIdx ny nz idx
    addVoxel zMin vsz w t.1 t.2.1 t.2.2

/-- `Number(occupancyData.numVoxels) || (nx * ny * nz)`: an absent, non
finite, or zero `numVoxels` falls back to the grid capacity. -/
def effNumVoxels (d : OccupancyData) : ℕ :=
  match d.numVoxels with
  | some n => if n = 0 then nx d * ny d * nz d else n
  | none => nx d * ny d * nz d

/-- The list of voxels collected by `visualizeOccupancyWithCubes` before
grouping: effective threshold and z window are computed once, then either
the bitset or the dense iteration runs. -/
def visualizeVoxels (d : OccupancyData) (o : RenderOptions) : List VoxelRec :=
  let threshold := effectiveThreshold o
  let w := effectiveZWindow d o
  if d.encoding = "bitset" then
    bitsetVoxels d.occupancyBits (effNumVoxels d) (ny d) (nz d)
      d.boundsZ.1 (voxelSizeZ d) w
  else
    denseVoxels d.occupancy (nx d) (ny d) (nz d) threshold
      d.boundsZ.1 (voxelSizeZ d) w

/-- World-space center assigned in the instancing loop: the x and y axes
are swapped (`worldX` from the grid y index, `worldY` from the grid x
index), `worldZ` is carried from `addVoxel`. -/
def worldCenter (d : OccupancyData) (r : VoxelRec) : ℚ × ℚ × ℚ :=
  (d.boundsY.1 + ((r.y : ℚ) + 1/2) * voxelSizeY d,
   d.boundsX.1 + ((r.x : ℚ) + 1/2) * voxelSizeX d,
   r.worldZ)

/-- Grouping key of a voxel: `zBin = Math.floor(worldZ / binSize)` with
`binSize = 0.1`. -/
def heightBand (r : VoxelRec) : ℤ := ⌊r.worldZ / (1/10)⌋

end Renderer3D

namespace Loader

/-- Parsed occupancy metadata as consumed by `loadOccupancyData`
(fields of the JSON object; `Option` marks fields that may be absent or
of the wrong type). -/
structure OccMetadata where
  gridShape : List ℕ
  encoding : Option String
  numVoxels : Option ℕ
  bitorder : Option String
  bakeThreshold : Option ℚ
deriving DecidableEq, Repr

/-- The record returned by `loadOccupancyData`; the raw branch carries no
`bitorder` or `bakeThreshold` field, modelled as `none`. -/
structure LoadedOccupancy where
  encoding : String
  occupancy : List ℚ
  occupancyBits : List ℕ
  numVoxels : ℕ
  bitorder : Option String
  bakeThreshold : Option ℚ
deriving DecidableEq, Repr

/-- The pure decoding tail of `loadOccupancyData` after the fetches:
`buf` is the binary payload as bytes and `floatView` its `Float32Array`
reinterpretation (byte-level float decoding is the I/O boundary and is
passed in).  `expectedSize` is `grid_shape.reduce((a,b) => a*b, 1)`.
The bitset branch records the declared `bitorder` (the JavaScript
`metadata.bitorder || 'lsb0'` also replaces an empty string); size
mismatches only log a warning in the source and decoding proceeds. -/
def loadOccupancyData (m : OccMetadata) (buf : List ℕ) (floatView : List ℚ) :
    LoadedOccupancy :=
  let expectedSize := m.gridShape.foldl (fun a b => a * b) 1
  let encoding := m.encoding.getD "raw"
  if encoding = "bitset" then
    { encoding := "bitset"
      occupancy := []
      occupancyBits := buf
      numVoxels := match m.numVoxels with
        | some n => if n = 0 then expectedSize else n
        | none => expectedSize
      bitorder := some (let b := m.bitorder.getD "lsb0"; if b = "" then "lsb0" else b)
      bakeThreshold := m.bakeThreshold }
  else
    { encoding := "raw"
      occupancy := floatView
      occupancyBits := []
      numVoxels := expectedSize
      bitorder := none
      bakeThreshold := none }

end Loader

namespace Spec

/-- Little-endian bit packing of one byte: bit `j` of the result is the
`j`-th entry of the list. -/
def packBits : List Bool → ℕ
  | [] => 0
  | b :: rest => (if b then 1 else 0) + 2 * packBits rest

/-- Modelled from the spec: the bitset encoder (bake step) is not part of
the JavaScript sources (the bitset payload is produced by offline build
scripts); the spec states that the bitset is "produced by thresholding a
probability grid once at encode time", stored as "a byte array of length
`ceil(num_voxels/8)`" in which "bit `i` of byte `i>>3` (bit position
`i&7`, LSB-first) indicates occupancy of canonical linear index `i`".
Occupancy of a cell means its value exceeds the bake threshold, matching
the dense iteration's strict `p <= threshold` skip. -/
def bakeBitset (v : List ℚ) (t : ℚ) : List ℕ :=
  (List.range ((v.length + 7) / 8)).map fun byteIdx =>
    packBits ((List.range 8).map fun bit =>
      decide (byteIdx * 8 + bit < v.length ∧ t < v.getD (byteIdx * 8 + bit) 0))

end Spec

section IndexHelpers

open Renderer3D

lemma sub_div_mul_eq_mod (a b : ℕ) : a - a / b * b = a % b := by
  rw [Nat.mod_def, Nat.mul_comm b (a / b)]

lemma decodeIdx_divmod (ny nz idx : ℕ) :
    decodeIdx ny nz idx =
      (idx / (nz * ny), idx % (nz * ny) / nz, idx % (nz * ny) % nz) := by
  simp only [decodeIdx]
  rw [sub_div_mul_eq_mod, sub_div_mul_eq_mod]

lemma decodeIdx_canonical {ny nz : ℕ} (x : ℕ) {y z : ℕ}
    (hy : y < ny) (hz : z < nz) :
    decodeIdx ny nz (z + y * nz + x * nz * ny) = (x, y, z) := by
  have hnz : 0 < nz := by omega
  have hny : 0 < ny := by omega
  have hs : 0 < nz * ny := Nat.mul_pos hnz hny
  have hrem : z + y * nz < nz * ny := by
    calc z + y * nz < nz + y * nz := by omega
    _ = (y + 1) * nz := by ring
    _ ≤ ny * nz := Nat.mul_le_mul_right nz (by omega)
    _ = nz * ny := Nat.mul_comm ny nz
  have he : z + y * nz + x * nz * ny = z + y * nz + x * (nz * ny) := by ring
  rw [decodeIdx_divmod, he, Nat.add_mul_div_right _ _ hs, Nat.div_eq_of_lt hrem,
    Nat.add_mul_mod_self_right, Nat.mod_eq_of_lt hrem,
    Nat.add_mul_div_right _ _ hnz, Nat.div_eq_of_lt hz,
    Nat.add_mul_mod_self_right, Nat.mod_eq_of_lt hz]
  simp

lemma canonical_decodeIdx (ny nz idx : ℕ) :
    (decodeIdx ny nz idx).2.2 + (decodeIdx ny nz idx).2.1 * nz
      + (decodeIdx ny nz idx).1 * nz * ny = idx := by
  rw [decodeIdx_divmod]
  have h1 : idx % (nz * ny) % nz + idx % (nz * ny) / nz * nz = idx % (nz * ny) :=
    Nat.mod_add_div' _ _
  have h2 : idx % (nz * ny) + idx / (nz * ny) * (nz * ny) = idx :=
    Nat.mod_add_div' _ _
  calc idx % (nz * ny) % nz + idx % (nz * ny) / nz * nz + idx / (nz * ny) * nz * ny
      = idx % (nz * ny) + idx / (nz * ny) * (nz * ny) := by rw [h1]; ring
  _ = idx := h2

lemma canonical_lt {nx ny nz x y z : ℕ} (hx : x < nx) (hy : y < ny) (hz : z < nz) :
    z + y * nz + x * nz * ny < nx * ny * nz := by
  have h1 : z + y * nz < nz * ny := by
    calc z + y * nz < nz + y * nz := by omega
    _ = (y + 1) * nz := by ring
    _ ≤ ny * nz := Nat.mul_le_mul_right nz (by omega)
    _ = nz * ny := Nat.mul_comm ny nz
  calc z + y * nz + x * nz * ny = z + y * nz + x * (nz * ny) := by ring
  _ < nz * ny + x * (nz * ny) := Nat.add_lt_add_right h1 _
  _ = (x + 1) * (nz * ny) := by ring
  _ ≤ nx * (nz * ny) := Nat.mul_le_mul_right _ (by omega)
  _ = nx * ny * nz := by ring

lemma decodeIdx_lt {nx ny nz idx : ℕ} (h : idx < nx * ny * nz) :
    (decodeIdx ny nz idx).1 < nx ∧ (decodeIdx ny nz idx).2.1 < ny ∧
      (decodeIdx ny nz idx).2.2 < nz := by
  have hs : 0 < nz * ny := by
    rcases Nat.eq_zero_or_pos (nz * ny) with h0 | h0
    · exfalso
      have : nx * ny * nz = 0 := by
        have := Nat.mul_eq_zero.mp h0
        rcases this with h' | h' <;> simp [h']
      omega
    · exact h0
  have hnz : 0 < nz := by
    rcases Nat.eq_zero_or_pos nz with h0 | h0
    · exfalso; rw [h0] at hs; simp at hs
    · exact h0
  rw [decodeIdx_divmod]
  refine ⟨?_, ?_, ?_⟩
  · rw [Nat.div_lt_iff_lt_mul hs]
    calc idx < nx * ny * nz := h
    _ = nx * (nz * ny) := by ring
  · have hm : idx % (nz * ny) < nz * ny := Nat.mod_lt idx hs
    rw [Nat.div_lt_iff_lt_mul hnz]
    calc idx % (nz * ny) < nz * ny := hm
    _ = ny * nz := Nat.mul_comm nz ny
  · exact Nat.mod_lt _ hnz

end IndexHelpers

section ProjectionHelpers

open OccupancyProcessor

lemma getD_map_range {α : Type} {f : ℕ → α} {n i : ℕ} {d : α} (h : i < n) :
    ((List.range n).map f).getD i d = f i := by
  rw [List.getD_eq_getElem?_getD, List.getElem?_map, List.getElem?_range h]
  simp

lemma le_foldl_guard_max {c : ℕ → Prop} [DecidablePred c] (w : ℕ → ℚ) :
    ∀ (l : List ℕ) (b : ℚ),
      b ≤ l.foldl (fun m z => if c z then max m (w z) else m) b
  | [], b => le_refl b
  | z :: l, b => by
    simp only [List.foldl_cons]
    refine le_trans ?_ (le_foldl_guard_max w l _)
    split_ifs
    · exact le_max_left _ _
    · exact le_refl _

lemma mem_le_foldl_guard_max {c : ℕ → Prop} [DecidablePred c] (w : ℕ → ℚ) :
    ∀ (l : List ℕ) (b : ℚ) (z0 : ℕ), z0 ∈ l → c z0 →
      w z0 ≤ l.foldl (fun m z => if c z then max m (w z) else m) b
  | [], _, z0, h, _ => absurd h (List.not_mem_nil z0)
  | z :: l, b, z0, h, hc => by
    rcases List.mem_cons.mp h with rfl | hmem
    · simp only [List.foldl_cons]
      refine le_trans ?_ (le_foldl_guard_max w l _)
      rw [if_pos hc]
      exact le_max_right _ _
    · simp only [List.foldl_cons]
      exact mem_le_foldl_guard_max w l _ z0 hmem hc

lemma foldl_guard_sum_le_aux {c : ℕ → Prop} [DecidablePred c] (w : ℕ → ℚ)
    (M : ℚ) (hM : 0 ≤ M) :
    ∀ (l : List ℕ) (b : ℚ), (∀ z ∈ l, c z → w z ≤ M) →
      l.foldl (fun s z => if c z then s + w z else s) b ≤ b + (l.length : ℚ) * M
  | [], b, _ => by simp
  | z :: l, b, h => by
    simp only [List.foldl_cons, List.length_cons]
    refine le_trans (foldl_guard_sum_le_aux w M hM l _
      (fun z' hz' => h z' (List.mem_cons_of_mem z hz'))) ?_
    have hcast : ((l.length + 1 : ℕ) : ℚ) = (l.length : ℚ) + 1 := by push_cast; ring
    rw [hcast]
    split_ifs with hc
    · have := h z (List.mem_cons_self z l) hc
      linarith
    · linarith

lemma projectMax_cell (occupancy : List ℚ) (s : ℕ × ℕ × ℕ) (mode : IndexingMode)
    {x y : ℕ} (hy : y < (resolveAxes mode s).ny) (hx : x < (resolveAxes mode s).nx) :
    ((projectMaxOccupancy occupancy s mode).getD y []).getD x 0 =
      (List.range (resolveAxes mode s).nz).foldl (fun m z =>
        if getIndexFn mode s x y z < occupancy.length
        then max m (occupancy.getD (getIndexFn mode s x y z) 0) else m) 0 := by
  simp only [projectMaxOccupancy]
  rw [getD_map_range hy, getD_map_range hx]

lemma resolveAxesMean_eq {mode : IndexingMode}
    (h : mode ≠ IndexingMode.defaultMode) (s : ℕ × ℕ × ℕ) :
    resolveAxesMean mode s = resolveAxes mode s := by
  cases mode
  case defaultMode => exact absurd rfl h
  all_goals rfl

lemma getIndexFnMean_eq {mode : IndexingMode}
    (h : mode ≠ IndexingMode.defaultMode) (s : ℕ × ℕ × ℕ) (x y z : ℕ) :
    getIndexFnMean mode s x y z = getIndexFn mode s x y z := by
  cases mode
  case defaultMode => exact absurd rfl h
  all_goals rfl

lemma projectMean_cell (occupancy : List ℚ) (s : ℕ × ℕ × ℕ) (mode : IndexingMode)
    {x y : ℕ} (hy : y < (resolveAxesMean mode s).ny)
    (hx : x < (resolveAxesMean mode s).nx) :
    ((projectMeanOccupancy occupancy s mode).getD y []).getD x 0 =
      ((List.range (resolveAxesMean mode s).nz).foldl (fun s' z =>
        if getIndexFnMean mode s x y z < occupancy.length
        then s' + occupancy.getD (getIndexFnMean mode s x y z) 0 else s') 0)
        / ((resolveAxesMean mode s).nz : ℚ) := by
  simp only [projectMeanOccupancy]
  rw [getD_map_range hy, getD_map_range hx]

lemma projectMean_cell_named (occupancy : List ℚ) (s : ℕ × ℕ × ℕ)
    (mode : IndexingMode) (hmode : mode ≠ IndexingMode.defaultMode)
    {x y : ℕ} (hy : y < (resolveAxes mode s).ny) (hx : x < (resolveAxes mode s).nx) :
    ((projectMeanOccupancy occupancy s mode).getD y []).getD x 0 =
      ((List.range (resolveAxes mode s).nz).foldl (fun s' z =>
        if getIndexFn mode s x y z < occupancy.length
        then s' + occupancy.getD (getIndexFn mode s x y z) 0 else s') 0)
        / ((resolveAxes mode s).nz : ℚ) := by
  have hyM : y < (resolveAxesMean mode s).ny := by
    rw [resolveAxesMean_eq hmode]
    exact hy
  have hxM : x < (resolveAxesMean mode s).nx := by
    rw [resolveAxesMean_eq hmode]
    exact hx
  rw [projectMean_cell occupancy s mode hyM hxM]
  simp only [getIndexFnMean_eq hmode, resolveAxesMean_eq hmode]

lemma extractZSlice_cell (occupancy : List ℚ) (s : ℕ × ℕ × ℕ) (mode : IndexingMode)
    {x y zi : ℕ} (hy : y < (resolveAxes mode s).ny) (hx : x < (resolveAxes mode s).nx)
    (hz : zi < (resolveAxes mode s).nz) :
    ∃ sl, extractZSlice occupancy s zi mode = some sl ∧
      (sl.getD y []).getD x 0 =
        (if getIndexFn mode s x y zi < occupancy.length
         then occupancy.getD (getIndexFn mode s x y zi) 0 else 0) := by
  simp only [extractZSlice]
  rw [if_neg (by omega : ¬ ((resolveAxes mode s).nz ≤ zi))]
  refine ⟨_, rfl, ?_⟩
  rw [getD_map_range hy, getD_map_range hx]

end ProjectionHelpers

/-- C1: over a dense volume (length nx*ny*nz) and valid grid shape, with
the indexing mode the application invokes (variant10, hardcoded in
OccupancyView), every projection output cell [y][x] is the aggregate of
the volume values addressed through the canonical linear mapping
offset = z + y*nz + x*nz*ny: projectMax is the max over z (floored at 0),
projectMean the sum over z divided by nz, extractZSlice the single-z
value. -/
theorem claim_C1_projection_canonical (occupancy : List ℚ) (nx ny nz x y zi : ℕ)
    (hlen : occupancy.length = nx * ny * nz)
    (hx : x < nx) (hy : y < ny) (hz : zi < nz) :
    ((OccupancyProcessor.projectMaxOccupancy occupancy (nx, ny, nz)
        OccupancyProcessor.IndexingMode.variant10).getD y []).getD x 0 =
      (List.range nz).foldl (fun m z =>
        max m (occupancy.getD (z + y * nz + x * nz * ny) 0)) 0 ∧
    ((OccupancyProcessor.projectMeanOccupancy occupancy (nx, ny, nz)
        OccupancyProcessor.IndexingMode.variant10).getD y []).getD x 0 =
      ((List.range nz).foldl (fun s z =>
        s + occupancy.getD (z + y * nz + x * nz * ny) 0) 0) / (nz : ℚ) ∧
    ∃ sl, OccupancyProcessor.extractZSlice occupancy (nx, ny, nz) zi
        OccupancyProcessor.IndexingMode.variant10 = some sl ∧
      (sl.getD y []).getD x 0 = occupancy.getD (zi + y * nz + x * nz * ny) 0 := by
  have hguard : ∀ z ∈ List.range nz,
      OccupancyProcessor.getIndexFn OccupancyProcessor.IndexingMode.variant10
        (nx, ny, nz) x y z < occupancy.length := by
    intro z hzm
    rw [hlen]
    exact canonical_lt hx hy (List.mem_range.mp hzm)
  refine ⟨?_, ?_, ?_⟩
  · rw [projectMax_cell occupancy (nx, ny, nz) OccupancyProcessor.IndexingMode.variant10 hy hx]
    refine List.foldl_ext _ _ 0 ?_
    intro m z hzm
    rw [if_pos (hguard z hzm)]
    rfl
  · rw [projectMean_cell_named occupancy (nx, ny, nz)
      OccupancyProcessor.IndexingMode.variant10 (by decide) hy hx]
    congr 1
    refine List.foldl_ext _ _ 0 ?_
    intro m z hzm
    rw [if_pos (hguard z hzm)]
    rfl
  · obtain ⟨sl, hsl, hcell⟩ :=
      extractZSlice_cell occupancy (nx, ny, nz)
        OccupancyProcessor.IndexingMode.variant10 hy hx hz
    refine ⟨sl, hsl, ?_⟩
    rw [hcell, if_pos (hguard zi (List.mem_range.mpr hz))]
    rfl

/-- C1 witness: on the 2x2x2 dense volume with only cell (1,1,1) = 9/10,
the three projections at cell (x,y) = (1,1) follow the canonical mapping. -/
theorem claim_C1_projection_canonical_w :
    ((OccupancyProcessor.projectMaxOccupancy [0, 0, 0, 0, 0, 0, 0, 9/10] (2, 2, 2)
        OccupancyProcessor.IndexingMode.variant10).getD 1 []).getD 1 0 =
      (List.range 2).foldl (fun m z =>
        max m (List.getD [0, 0, 0, 0, 0, 0, 0, 9/10] (z + 1 * 2 + 1 * 2 * 2) 0)) 0 ∧
    ((OccupancyProcessor.projectMeanOccupancy [0, 0, 0, 0, 0, 0, 0, 9/10] (2, 2, 2)
        OccupancyProcessor.IndexingMode.variant10).getD 1 []).getD 1 0 =
      ((List.range 2).foldl (fun s z =>
        s + List.getD [0, 0, 0, 0, 0, 0, 0, 9/10] (z + 1 * 2 + 1 * 2 * 2) 0) 0) / (2 : ℚ) ∧
    ∃ sl, OccupancyProcessor.extractZSlice [0, 0, 0, 0, 0, 0, 0, 9/10] (2, 2, 2) 1
        OccupancyProcessor.IndexingMode.variant10 = some sl ∧
      (sl.getD 1 []).getD 1 0 = List.getD [0, 0, 0, 0, 0, 0, 0, 9/10] (1 + 1 * 2 + 1 * 2 * 2) 0 :=
  claim_C1_projection_canonical [0, 0, 0, 0, 0, 0, 0, 9/10] 2 2 2 1 1 1
    (by decide) (by decide) (by decide) (by decide)

/-- C7: for every volume and grid shape (hence every geometry), and every
recognized indexing mode (the ten named variants, covering the canonical
variant10 that the application invokes; the unreachable `default:` branch
is excluded because `projectMeanOccupancy`'s source default uses a
different mapping than `projectMaxOccupancy`'s), at every resolved cell
(x, y) with positive nz: the projectMean cell never exceeds the
projectMax cell, and any extractZSlice cell never exceeds the projectMax
cell. -/
theorem claim_C7_projection_consistency (occupancy : List ℚ) (s : ℕ × ℕ × ℕ)
    (mode : OccupancyProcessor.IndexingMode) (x y : ℕ)
    (hmode : mode ≠ OccupancyProcessor.IndexingMode.defaultMode)
    (hy : y < (OccupancyProcessor.resolveAxes mode s).ny)
    (hx : x < (OccupancyProcessor.resolveAxes mode s).nx)
    (hnz : 0 < (OccupancyProcessor.resolveAxes mode s).nz) :
    ((OccupancyProcessor.projectMeanOccupancy occupancy s mode).getD y []).getD x 0 ≤
      ((OccupancyProcessor.projectMaxOccupancy occupancy s mode).getD y []).getD x 0 ∧
    ∀ zi sl, OccupancyProcessor.extractZSlice occupancy s zi mode = some sl →
      (sl.getD y []).getD x 0 ≤
        ((OccupancyProcessor.projectMaxOccupancy occupancy s mode).getD y []).getD x 0 := by
  set A := OccupancyProcessor.resolveAxes mode s with hA
  set gi := fun z => OccupancyProcessor.getIndexFn mode s x y z with hgi
  set M := ((OccupancyProcessor.projectMaxOccupancy occupancy s mode).getD y []).getD x 0
    with hM
  have hMfold : M = (List.range A.nz).foldl (fun m z =>
      if gi z < occupancy.length then max m (occupancy.getD (gi z) 0) else m) 0 := by
    rw [hM, projectMax_cell occupancy s mode hy hx]
  have hM0 : 0 ≤ M := by
    rw [hMfold]
    exact le_foldl_guard_max _ _ 0
  have hMmem : ∀ z, z ∈ List.range A.nz → gi z < occupancy.length →
      occupancy.getD (gi z) 0 ≤ M := by
    intro z hzm hc
    rw [hMfold]
    exact mem_le_foldl_guard_max _ _ 0 z hzm hc
  constructor
  · rw [projectMean_cell_named occupancy s mode hmode hy hx]
    rw [div_le_iff₀ (by exact_mod_cast hnz)]
    have := foldl_guard_sum_le_aux (fun z => occupancy.getD (gi z) 0) M hM0
      (List.range A.nz) 0 (fun z hz hc => hMmem z hz hc)
    simp only [List.length_range, zero_add] at this
    calc (List.range A.nz).foldl (fun s' z =>
        if gi z < occupancy.length then s' + occupancy.getD (gi z) 0 else s') 0
        ≤ (A.nz : ℚ) * M := this
    _ = M * (A.nz : ℚ) := mul_comm _ _
  · intro zi sl hsl
    have hzi : zi < A.nz := by
      by_contra hcon
      simp only [OccupancyProcessor.extractZSlice, ← hA] at hsl
      rw [if_pos (by omega)] at hsl
      exact Option.noConfusion hsl
    obtain ⟨sl', hsl', hcell⟩ :=
      extractZSlice_cell occupancy s mode hy hx hzi
    rw [hsl] at hsl'
    injection hsl' with hsl''
    rw [hsl'', hcell]
    split_ifs with hc
    · exact hMmem zi (List.mem_range.mpr hzi) hc
    · exact hM0

/-- C7 witness: on the 2x2x2 volume with only cell (1,1,1) = 9/10 in
variant10 indexing, mean ≤ max at cell (1,1) and every slice cell is
bounded by the max cell. -/
theorem claim_C7_projection_consistency_w :
    ((OccupancyProcessor.projectMeanOccupancy [0, 0, 0, 0, 0, 0, 0, 9/10] (2, 2, 2)
        OccupancyProcessor.IndexingMode.variant10).getD 1 []).getD 1 0 ≤
      ((OccupancyProcessor.projectMaxOccupancy [0, 0, 0, 0, 0, 0, 0, 9/10] (2, 2, 2)
        OccupancyProcessor.IndexingMode.variant10).getD 1 []).getD 1 0 ∧
    ∀ zi sl, OccupancyProcessor.extractZSlice [0, 0, 0, 0, 0, 0, 0, 9/10] (2, 2, 2) zi
        OccupancyProcessor.IndexingMode.variant10 = some sl →
      (sl.getD 1 []).getD 1 0 ≤
        ((OccupancyProcessor.projectMaxOccupancy [0, 0, 0, 0, 0, 0, 0, 9/10] (2, 2, 2)
          OccupancyProcessor.IndexingMode.variant10).getD 1 []).getD 1 0 :=
  claim_C7_projection_consistency [0, 0, 0, 0, 0, 0, 0, 9/10] (2, 2, 2)
    OccupancyProcessor.IndexingMode.variant10 1 1
    (by decide) (by decide) (by decide) (by decide)

/-- C2: for every (x, y, z) with 0 ≤ x < nx, 0 ≤ y < ny, 0 ≤ z < nz,
the inverse mapping used by the bitset voxelization, applied to the
canonical linear index idx = z + y*nz + x*nz*ny, recovers exactly
(x, y, z): both in the source's subtraction form (`decodeIdx`, with
x = idx / xyStride, rem = idx - x*xyStride, y = rem / nz, z = rem - y*nz)
and in the claim's division/remainder form
(x = idx / (ny*nz), r = idx % (ny*nz), y = r / nz, z = r % nz). -/
theorem claim_C2_roundtrip_indexing (nx ny nz x y z : ℕ)
    (_hx : x < nx) (hy : y < ny) (hz : z < nz) :
    Renderer3D.decodeIdx ny nz (z + y * nz + x * nz * ny) = (x, y, z) ∧
      ((z + y * nz + x * nz * ny) / (ny * nz),
       ((z + y * nz + x * nz * ny) % (ny * nz)) / nz,
       ((z + y * nz + x * nz * ny) % (ny * nz)) % nz) = (x, y, z) := by
  have h1 := decodeIdx_canonical x hy hz
  refine ⟨h1, ?_⟩
  rw [decodeIdx_divmod ny nz (z + y * nz + x * nz * ny)] at h1
  rw [Nat.mul_comm ny nz]
  exact h1

/-- C2 witness: round trip at (x, y, z) = (2, 3, 4) on a 3 × 4 × 5 grid,
in both the source's form and the claim's div/mod form. -/
theorem claim_C2_roundtrip_indexing_w :
    Renderer3D.decodeIdx 4 5 (4 + 3 * 5 + 2 * 5 * 4) = (2, 3, 4) ∧
      ((4 + 3 * 5 + 2 * 5 * 4) / (4 * 5),
       ((4 + 3 * 5 + 2 * 5 * 4) % (4 * 5)) / 5,
       ((4 + 3 * 5 + 2 * 5 * 4) % (4 * 5)) % 5) = (2, 3, 4) :=
  claim_C2_roundtrip_indexing 3 4 5 2 3 4 (by decide) (by decide) (by decide)

/-- C9: for every world z, z bounds with zMax > zMin and nz ≥ 1,
`worldZToIndex` returns an integer in [0, nz-1]: the floored normalized
index is clamped into range. -/
theorem claim_C9_worldZToIndex_clamped (worldZ zMin zMax : ℚ) (nzc : ℕ)
    (_hb : zMin < zMax) (hn : 1 ≤ nzc) :
    0 ≤ OccupancyProcessor.worldZToIndex worldZ (zMin, zMax) nzc ∧
      OccupancyProcessor.worldZToIndex worldZ (zMin, zMax) nzc ≤ (nzc : ℤ) - 1 := by
  simp only [OccupancyProcessor.worldZToIndex]
  constructor
  · exact le_max_left 0 _
  · apply max_le
    · have : (1 : ℤ) ≤ (nzc : ℤ) := by exact_mod_cast hn
      omega
    · exact min_le_left _ _

/-- C9 witness: a world z far above the bounds [0, 2] with nz = 4 clamps
to index 3. -/
theorem claim_C9_worldZToIndex_clamped_w :
    0 ≤ OccupancyProcessor.worldZToIndex 100 (0, 2) 4 ∧
      OccupancyProcessor.worldZToIndex 100 (0, 2) 4 ≤ (4 : ℤ) - 1 :=
  claim_C9_worldZToIndex_clamped 100 0 2 4 (by norm_num) (by norm_num)

/-- C4 counterexample: with grid z bounds [0, 2] (nz = 2, voxel height 1)
and zFilterMin = 5 above the grid's z upper bound, the effective window
computed by `visualizeOccupancyWithCubes` is (5, 2): inverted, because
the widening step caps zFilterMax at zMax without lowering zFilterMin.
This refutes the claim that the effective window is always non-inverted. -/
theorem claim_C4_counterexample :
    Renderer3D.effectiveZWindow
        ⟨(1, 1, 2), (0, 1), (0, 1), (0, 2), [], [], "raw", none, none⟩
        ⟨none, some 5, none, none⟩ = (5, 2) ∧
      ¬ ((Renderer3D.effectiveZWindow
        ⟨(1, 1, 2), (0, 1), (0, 1), (0, 2), [], [], "raw", none, none⟩
        ⟨none, some 5, none, none⟩).1 <
          (Renderer3D.effectiveZWindow
        ⟨(1, 1, 2), (0, 1), (0, 1), (0, 2), [], [], "raw", none, none⟩
        ⟨none, some 5, none, none⟩).2) := by
  have hval : Renderer3D.effectiveZWindow
      ⟨(1, 1, 2), (0, 1), (0, 1), (0, 2), [], [], "raw", none, none⟩
      ⟨none, some 5, none, none⟩ = (5, 2) := by
    norm_num [Renderer3D.effectiveZWindow, Renderer3D.voxelSizeZ, Renderer3D.nz]
  refine ⟨hval, ?_⟩
  rw [hval]
  norm_num

/-- C4 amended: the voxelization is a total function (it always returns a
well-defined, possibly empty, voxel list), and whenever the clamped
zFilterMin `max zMin (options.zFilterMin ?? zMin)` lies strictly below the
grid's z upper bound, the effective window is non-inverted; a zFilterMin
at or above zMax can leave the window inverted (see the counterexample),
in which case no voxel passes the filter. -/
theorem claim_C4_amended (d : Renderer3D.OccupancyData) (o : Renderer3D.RenderOptions)
    (hnz : 0 < Renderer3D.nz d)
    (hmin : max d.boundsZ.1 (o.zFilterMin.getD d.boundsZ.1) < d.boundsZ.2) :
    (Renderer3D.effectiveZWindow d o).1
        = max d.boundsZ.1 (o.zFilterMin.getD d.boundsZ.1) ∧
      (Renderer3D.effectiveZWindow d o).1 < (Renderer3D.effectiveZWindow d o).2 := by
  have hzb : d.boundsZ.1 < d.boundsZ.2 :=
    lt_of_le_of_lt (le_max_left _ _) hmin
  have hvsz : 0 < Renderer3D.voxelSizeZ d := by
    unfold Renderer3D.voxelSizeZ
    apply div_pos (by linarith)
    exact_mod_cast hnz
  simp only [Renderer3D.effectiveZWindow]
  split_ifs with h1 h2 h2
  · exact ⟨rfl, lt_min hmin (by linarith)⟩
  · exact ⟨rfl, lt_of_not_le h2⟩
  · exact ⟨rfl, lt_min hmin (by linarith)⟩
  · exact ⟨rfl, lt_of_not_le h2⟩

/-- C4 amended witness: default options on z bounds [0, 2] with nz = 2
give the non-inverted window (0, 2). -/
theorem claim_C4_amended_w :
    (Renderer3D.effectiveZWindow
        ⟨(1, 1, 2), (0, 1), (0, 1), (0, 2), [], [], "raw", none, none⟩
        ⟨none, none, none, none⟩).1
        = max (0 : ℚ) ((Option.getD none (0 : ℚ))) ∧
      (Renderer3D.effectiveZWindow
        ⟨(1, 1, 2), (0, 1), (0, 1), (0, 2), [], [], "raw", none, none⟩
        ⟨none, none, none, none⟩).1 <
        (Renderer3D.effectiveZWindow
        ⟨(1, 1, 2), (0, 1), (0, 1), (0, 2), [], [], "raw", none, none⟩
        ⟨none, none, none, none⟩).2 :=
  claim_C4_amended _ _ (by decide) (by norm_num)

/-- C5 counterexample: a bitset metadata declaring bitorder "msb0" (not
"lsb0") decodes without failing: `loadOccupancyData` performs no bit
order validation, returns a bitset volume and records the declared order.
This refutes the claim that non-lsb0 inputs fail with UnsupportedBitOrder
and produce no decoded volume. -/
theorem claim_C5_counterexample :
    (Loader.loadOccupancyData
        ⟨[2, 2, 2], some "bitset", some 8, some "msb0", some (1/2)⟩
        [255] []).encoding = "bitset" ∧
      (Loader.loadOccupancyData
        ⟨[2, 2, 2], some "bitset", some 8, some "msb0", some (1/2)⟩
        [255] []).bitorder = some "msb0" ∧
      (Loader.loadOccupancyData
        ⟨[2, 2, 2], some "bitset", some 8, some "msb0", some (1/2)⟩
        [255] []).occupancyBits = [255] := by
  refine ⟨rfl, ?_, rfl⟩
  rfl

/-- C5 amended: the decoder accepts every declared bit order: for any
bitset-encoded metadata it returns a decoded bitset volume carrying the
raw bytes, and records the declared bit order (defaulting to "lsb0" when
absent or empty) instead of rejecting non-lsb0 orders; downstream bit
tests always read bits LSB-first regardless. -/
theorem claim_C5_amended (m : Loader.OccMetadata) (buf : List ℕ) (fv : List ℚ)
    (he : m.encoding = some "bitset") :
    (Loader.loadOccupancyData m buf fv).encoding = "bitset" ∧
      (Loader.loadOccupancyData m buf fv).occupancyBits = buf ∧
      (Loader.loadOccupancyData m buf fv).bitorder ≠ none := by
  simp only [Loader.loadOccupancyData, he, Option.getD_some]
  simp

/-- C5 amended witness: the "msb0" metadata of the counterexample input
decodes to a bitset volume carrying its bytes. -/
theorem claim_C5_amended_w :
    (Loader.loadOccupancyData
        ⟨[2, 2, 2], some "bitset", some 8, some "msb0", some (1/2)⟩
        [7] []).encoding = "bitset" ∧
      (Loader.loadOccupancyData
        ⟨[2, 2, 2], some "bitset", some 8, some "msb0", some (1/2)⟩
        [7] []).occupancyBits = [7] ∧
      (Loader.loadOccupancyData
        ⟨[2, 2, 2], some "bitset", some 8, some "msb0", some (1/2)⟩
        [7] []).bitorder ≠ none :=
  claim_C5_amended _ _ _ rfl

section VoxelHelpers

open Renderer3D

lemma addVoxel_some {zMin vsz : ℚ} {w : ℚ × ℚ} {x y z : ℕ} {r : VoxelRec}
    (h : addVoxel zMin vsz w x y z = some r) :
    r.x = x ∧ r.y = y ∧ r.z = z ∧ r.worldZ = zMin + ((z : ℚ) + 1/2) * vsz := by
  simp only [addVoxel] at h
  split_ifs at h
  injection h with h'
  subst h'
  exact ⟨rfl, rfl, rfl, rfl⟩

lemma mem_visualizeVoxels_worldZ {d : OccupancyData} {o : RenderOptions}
    {r : VoxelRec} (h : r ∈ visualizeVoxels d o) :
    r.worldZ = d.boundsZ.1 + ((r.z : ℚ) + 1/2) * voxelSizeZ d := by
  simp only [visualizeVoxels] at h
  split_ifs at h
  · simp only [bitsetVoxels, List.mem_filterMap] at h
    obtain ⟨idx, _, hadd⟩ := h
    obtain ⟨_, _, hz, hw⟩ := addVoxel_some hadd
    rw [hw, hz]
  · simp only [denseVoxels, List.mem_flatMap, List.mem_filterMap, List.mem_range] at h
    obtain ⟨x, _, y, _, z, _, hif⟩ := h
    split_ifs at hif
    obtain ⟨_, _, hz, hw⟩ := addVoxel_some hif
    rw [hw, hz]

lemma mem_bitLoop {nv bi bv : ℕ} : ∀ (n bit i : ℕ),
    (i ∈ bitLoop nv bi bv bit n ↔
      ∃ b, bit ≤ b ∧ b < bit + n ∧ bv.testBit b ∧ i = bi * 8 + b ∧ i < nv)
  | 0, bit, i => by
    simp only [bitLoop, List.not_mem_nil, false_iff]
    rintro ⟨b, hb1, hb2, _⟩
    omega
  | n + 1, bit, i => by
    rw [bitLoop]
    split_ifs with htb hge
    · simp only [List.not_mem_nil, false_iff]
      rintro ⟨b, hb1, hb2, hb3, hb4, hb5⟩
      omega
    · rw [List.mem_cons, mem_bitLoop n (bit + 1) i]
      constructor
      · rintro (rfl | ⟨b, hb1, hb2, hb3, hb4, hb5⟩)
        · exact ⟨bit, le_refl _, by omega, htb, rfl, by omega⟩
        · exact ⟨b, by omega, by omega, hb3, hb4, hb5⟩
      · rintro ⟨b, hb1, hb2, hb3, hb4, hb5⟩
        rcases Nat.eq_or_lt_of_le hb1 with rfl | hbb
        · exact Or.inl hb4
        · exact Or.inr ⟨b, by omega, by omega, hb3, hb4, hb5⟩
    · rw [mem_bitLoop n (bit + 1) i]
      constructor
      · rintro ⟨b, hb1, hb2, hb3, hb4, hb5⟩
        exact ⟨b, by omega, by omega, hb3, hb4, hb5⟩
      · rintro ⟨b, hb1, hb2, hb3, hb4, hb5⟩
        rcases Nat.eq_or_lt_of_le hb1 with rfl | hbb
        · exact absurd hb3 (by simpa using htb)
        · exact ⟨b, by omega, by omega, hb3, hb4, hb5⟩

lemma mem_bitsetSetIndices {bits : List ℕ} {nv i : ℕ} :
    i ∈ bitsetSetIndices bits nv ↔
      (i / 8 < bits.length ∧ (bits.getD (i / 8) 0).testBit (i % 8) ∧ i < nv) := by
  simp only [bitsetSetIndices, List.mem_flatMap, List.mem_range]
  constructor
  · rintro ⟨bi, hbi, hmem⟩
    by_cases h0 : bits.getD bi 0 = 0
    · rw [if_pos h0] at hmem
      exact absurd hmem (List.not_mem_nil i)
    · rw [if_neg h0] at hmem
      obtain ⟨b, hb1, hb2, hb3, hb4, hb5⟩ := (mem_bitLoop 8 0 i).mp hmem
      have hdiv : i / 8 = bi := by omega
      have hmod : i % 8 = b := by omega
      rw [hdiv, hmod]
      exact ⟨hbi, hb3, hb5⟩
  · rintro ⟨hlen, htb, hlt⟩
    refine ⟨i / 8, hlen, ?_⟩
    have hb0 : bits.getD (i / 8) 0 ≠ 0 := by
      intro h0
      rw [h0] at htb
      simp [Nat.zero_testBit] at htb
    rw [if_neg hb0]
    exact (mem_bitLoop 8 0 i).mpr ⟨i % 8, Nat.zero_le _, by omega, htb, by omega, hlt⟩

end VoxelHelpers

section BakeHelpers

open Renderer3D

lemma packBits_testBit : ∀ (l : List Bool) (j : ℕ),
    (Spec.packBits l).testBit j = l.getD j false
  | [], j => by
    simp [Spec.packBits, Nat.zero_testBit]
  | b :: l, 0 => by
    rw [Spec.packBits, Nat.testBit_zero, List.getD_cons_zero]
    cases b
    · rw [if_neg (by simp)]
      have h : (0 + 2 * Spec.packBits l) % 2 = 0 := by omega
      simp [h]
    · rw [if_pos rfl]
      have h : (1 + 2 * Spec.packBits l) % 2 = 1 := by omega
      simp [h]
  | b :: l, j + 1 => by
    rw [Spec.packBits, Nat.testBit_succ]
    have hdiv : ((if b then (1 : ℕ) else 0) + 2 * Spec.packBits l) / 2 =
        Spec.packBits l := by
      cases b
      · rw [if_neg (by simp)]
        omega
      · rw [if_pos rfl]
        omega
    rw [hdiv, packBits_testBit l j, List.getD_cons_succ]

lemma bake_testBit (v : List ℚ) (t : ℚ) (i : ℕ) :
    (((Spec.bakeBitset v t).getD (i / 8) 0).testBit (i % 8) = true) ↔
      (i < v.length ∧ t < v.getD i 0) := by
  by_cases h : i / 8 < (v.length + 7) / 8
  · have hbyte : (Spec.bakeBitset v t).getD (i / 8) 0 =
        Spec.packBits ((List.range 8).map fun bit =>
          decide (i / 8 * 8 + bit < v.length ∧ t < v.getD (i / 8 * 8 + bit) 0)) := by
      simp only [Spec.bakeBitset]
      exact getD_map_range h
    rw [hbyte, packBits_testBit]
    rw [getD_map_range (show i % 8 < 8 by omega)]
    have hi : i / 8 * 8 + i % 8 = i := by omega
    rw [hi]
    simp
  · have hlen : (Spec.bakeBitset v t).length = (v.length + 7) / 8 := by
      simp [Spec.bakeBitset]
    have hge : (Spec.bakeBitset v t).length ≤ i / 8 := by
      rw [hlen]
      omega
    rw [List.getD_eq_default _ _ hge, Nat.zero_testBit]
    have hnl : ¬ (i < v.length) := by omega
    simp [hnl]

lemma mem_denseVoxels {v : List ℚ} {nxc nyc nzc : ℕ} {t zMin vsz : ℚ}
    {w : ℚ × ℚ} {r : VoxelRec} :
    r ∈ denseVoxels v nxc nyc nzc t zMin vsz w ↔
      ∃ x, x < nxc ∧ ∃ y, y < nyc ∧ ∃ z, z < nzc ∧
        z + y * nzc + x * nzc * nyc < v.length ∧
        t < v.getD (z + y * nzc + x * nzc * nyc) 0 ∧
        addVoxel zMin vsz w x y z = some r := by
  simp only [denseVoxels, List.mem_flatMap, List.mem_filterMap, List.mem_range]
  constructor
  · rintro ⟨x, hx, y, hy, z, hz, hif⟩
    refine ⟨x, hx, y, hy, z, hz, ?_⟩
    by_cases h1 : z + y * nzc + x * nzc * nyc < v.length
    · rw [if_pos h1] at hif
      by_cases h2 : v.getD (z + y * nzc + x * nzc * nyc) 0 ≤ t
      · rw [if_pos h2] at hif
        exact absurd hif (by simp)
      · rw [if_neg h2] at hif
        exact ⟨h1, not_le.mp h2, hif⟩
    · rw [if_neg h1] at hif
      exact absurd hif (by simp)
  · rintro ⟨x, hx, y, hy, z, hz, h1, h2, hadd⟩
    refine ⟨x, hx, y, hy, z, hz, ?_⟩
    rw [if_pos h1, if_neg (not_le.mpr h2)]
    exact hadd

lemma mem_bitsetVoxels_bake {v : List ℚ} {t : ℚ} {N nyc nzc : ℕ}
    {zMin vsz : ℚ} {w : ℚ × ℚ} {r : VoxelRec} (hlenN : v.length = N) :
    r ∈ bitsetVoxels (Spec.bakeBitset v t) N nyc nzc zMin vsz w ↔
      ∃ i, i < N ∧ t < v.getD i 0 ∧
        addVoxel zMin vsz w (decodeIdx nyc nzc i).1 (decodeIdx nyc nzc i).2.1
          (decodeIdx nyc nzc i).2.2 = some r := by
  simp only [bitsetVoxels, List.mem_filterMap]
  constructor
  · rintro ⟨i, hi, hadd⟩
    obtain ⟨hbl, htb, hiN⟩ := mem_bitsetSetIndices.mp hi
    obtain ⟨hil, htv⟩ := (bake_testBit v t i).mp htb
    exact ⟨i, hiN, htv, hadd⟩
  · rintro ⟨i, hiN, htv, hadd⟩
    refine ⟨i, mem_bitsetSetIndices.mpr ⟨?_, ?_, hiN⟩, hadd⟩
    · have hbl : (Spec.bakeBitset v t).length = (v.length + 7) / 8 := by
        simp [Spec.bakeBitset]
      rw [hbl]
      omega
    · exact (bake_testBit v t i).mpr ⟨by omega, htv⟩

lemma bitset_dense_engine_equiv {v : List ℚ} {nxc nyc nzc : ℕ} {t zMin vsz : ℚ}
    {w : ℚ × ℚ} (hlen : v.length = nxc * nyc * nzc) (r : VoxelRec) :
    r ∈ bitsetVoxels (Spec.bakeBitset v t) (nxc * nyc * nzc) nyc nzc zMin vsz w ↔
      r ∈ denseVoxels v nxc nyc nzc t zMin vsz w := by
  rw [mem_bitsetVoxels_bake hlen, mem_denseVoxels]
  constructor
  · rintro ⟨i, hiN, htv, hadd⟩
    obtain ⟨hxb, hyb, hzb⟩ := decodeIdx_lt hiN
    have henc := canonical_decodeIdx nyc nzc i
    refine ⟨(decodeIdx nyc nzc i).1, hxb, (decodeIdx nyc nzc i).2.1, hyb,
      (decodeIdx nyc nzc i).2.2, hzb, ?_, ?_, hadd⟩
    · rw [henc, hlen]
      exact hiN
    · rw [henc]
      exact htv
  · rintro ⟨x, hx, y, hy, z, hz, h1, h2, hadd⟩
    refine ⟨z + y * nzc + x * nzc * nyc, ?_, h2, ?_⟩
    · rw [← hlen]
      exact h1
    · rw [decodeIdx_canonical x hy hz]
      exact hadd

end BakeHelpers

/-- C3: spec-modelled bake (the encoder is not in the JavaScript sources):
baking a dense volume into an lsb0 bitset at the threshold t that the raw
voxelization would use, then voxelizing the bitset with any informational
threshold, emits exactly the same voxels (hence the same set of occupied
(x,y,z) grid triples) as voxelizing the dense volume directly at t, under
identical z-window options. -/
theorem claim_C3_bitset_raw_equivalence (v : List ℚ) (nxc nyc nzc : ℕ)
    (bX bY bZ : ℚ × ℚ) (th1 th2 zmin zmax dtl : Option ℚ)
    (hlen : v.length = nxc * nyc * nzc) (r : Renderer3D.VoxelRec) :
    (r ∈ Renderer3D.visualizeVoxels
        ⟨(nxc, nyc, nzc), bX, bY, bZ, [],
          Spec.bakeBitset v (Renderer3D.effectiveThreshold ⟨th2, zmin, zmax, dtl⟩),
          "bitset", some (nxc * nyc * nzc), none⟩
        ⟨th1, zmin, zmax, dtl⟩ ↔
      r ∈ Renderer3D.visualizeVoxels
        ⟨(nxc, nyc, nzc), bX, bY, bZ, v, [], "raw", none, none⟩
        ⟨th2, zmin, zmax, dtl⟩) := by
  rw [Renderer3D.visualizeVoxels, Renderer3D.visualizeVoxels]
  rw [if_pos (show Renderer3D.OccupancyData.encoding
      ⟨(nxc, nyc, nzc), bX, bY, bZ, [],
        Spec.bakeBitset v (Renderer3D.effectiveThreshold ⟨th2, zmin, zmax, dtl⟩),
        "bitset", some (nxc * nyc * nzc), none⟩ = "bitset" from rfl)]
  rw [if_neg (show ¬ (Renderer3D.OccupancyData.encoding
      ⟨(nxc, nyc, nzc), bX, bY, bZ, v, [], "raw", none, none⟩ = "bitset") by simp)]
  have hnv : Renderer3D.effNumVoxels
      ⟨(nxc, nyc, nzc), bX, bY, bZ, [],
        Spec.bakeBitset v (Renderer3D.effectiveThreshold ⟨th2, zmin, zmax, dtl⟩),
        "bitset", some (nxc * nyc * nzc), none⟩ = nxc * nyc * nzc := by
    simp only [Renderer3D.effNumVoxels]
    split_ifs with h
    · simp only [Renderer3D.nx, Renderer3D.ny, Renderer3D.nz]
    · rfl
  rw [show Renderer3D.OccupancyData.occupancyBits
      ⟨(nxc, nyc, nzc), bX, bY, bZ, [],
        Spec.bakeBitset v (Renderer3D.effectiveThreshold ⟨th2, zmin, zmax, dtl⟩),
        "bitset", some (nxc * nyc * nzc), none⟩ =
      Spec.bakeBitset v (Renderer3D.effectiveThreshold ⟨th2, zmin, zmax, dtl⟩) from rfl,
    hnv]
  exact bitset_dense_engine_equiv hlen r

/-- C3 witness: on the 2x2x2 dense volume with only cell (1,1,1) = 9/10,
the baked-bitset voxelization and the raw voxelization agree on the voxel
(1,1,1) (default options on both sides). -/
theorem claim_C3_bitset_raw_equivalence_w :
    (Renderer3D.VoxelRec.mk 1 1 1 (3/2) ∈ Renderer3D.visualizeVoxels
        ⟨(2, 2, 2), (0, 2), (0, 2), (0, 2), [],
          Spec.bakeBitset [0, 0, 0, 0, 0, 0, 0, 9/10]
            (Renderer3D.effectiveThreshold ⟨none, none, none, none⟩),
          "bitset", some (2 * 2 * 2), none⟩
        ⟨some 1, none, none, none⟩ ↔
      Renderer3D.VoxelRec.mk 1 1 1 (3/2) ∈ Renderer3D.visualizeVoxels
        ⟨(2, 2, 2), (0, 2), (0, 2), (0, 2), [0, 0, 0, 0, 0, 0, 0, 9/10], [],
          "raw", none, none⟩
        ⟨none, none, none, none⟩) :=
  claim_C3_bitset_raw_equivalence [0, 0, 0, 0, 0, 0, 0, 9/10] 2 2 2
    (0, 2) (0, 2) (0, 2) (some 1) none none none none (by decide) ⟨1, 1, 1, 3/2⟩

/-- C8: every voxel emitted by `visualizeOccupancyWithCubes` is placed
with the x/y axes swapped: world x = yMin + (y + 0.5)*voxelSizeY,
world y = xMin + (x + 0.5)*voxelSizeX, world z = zMin + (z + 0.5)*voxelSizeZ,
and its height band is floor(world z / 0.1). -/
theorem claim_C8_world_center_swapped (d : Renderer3D.OccupancyData)
    (o : Renderer3D.RenderOptions) (r : Renderer3D.VoxelRec)
    (h : r ∈ Renderer3D.visualizeVoxels d o) :
    Renderer3D.worldCenter d r =
      (d.boundsY.1 + ((r.y : ℚ) + 1/2) * ((d.boundsY.2 - d.boundsY.1) / (Renderer3D.ny d : ℚ)),
       d.boundsX.1 + ((r.x : ℚ) + 1/2) * ((d.boundsX.2 - d.boundsX.1) / (Renderer3D.nx d : ℚ)),
       d.boundsZ.1 + ((r.z : ℚ) + 1/2) * ((d.boundsZ.2 - d.boundsZ.1) / (Renderer3D.nz d : ℚ))) ∧
    Renderer3D.heightBand r =
      ⌊(d.boundsZ.1 + ((r.z : ℚ) + 1/2) * ((d.boundsZ.2 - d.boundsZ.1) / (Renderer3D.nz d : ℚ)))
        / (1/10)⌋ := by
  have hw := mem_visualizeVoxels_worldZ h
  constructor
  · simp only [Renderer3D.worldCenter, Renderer3D.voxelSizeX, Renderer3D.voxelSizeY]
    rw [hw]
    simp only [Renderer3D.voxelSizeZ]
  · simp only [Renderer3D.heightBand]
    rw [hw]
    simp only [Renderer3D.voxelSizeZ]

/-- C8 witness: the single voxel of a 1-cell grid is placed at the
swapped-axis world center (1/2, 1/2, 1/2) with height band 5. -/
theorem claim_C8_world_center_swapped_w :
    Renderer3D.worldCenter
        ⟨(1, 1, 1), (0, 1), (0, 1), (0, 1), [1], [], "raw", none, none⟩
        ⟨0, 0, 0, 1/2⟩ =
      ((0 : ℚ) + (((0 : ℕ) : ℚ) + 1/2) * (((1 : ℚ) - 0) / ((1 : ℕ) : ℚ)),
       (0 : ℚ) + (((0 : ℕ) : ℚ) + 1/2) * (((1 : ℚ) - 0) / ((1 : ℕ) : ℚ)),
       (0 : ℚ) + (((0 : ℕ) : ℚ) + 1/2) * (((1 : ℚ) - 0) / ((1 : ℕ) : ℚ))) ∧
    Renderer3D.heightBand ⟨0, 0, 0, 1/2⟩ =
      ⌊((0 : ℚ) + (((0 : ℕ) : ℚ) + 1/2) * (((1 : ℚ) - 0) / ((1 : ℕ) : ℚ))) / (1/10)⌋ :=
  claim_C8_world_center_swapped
    ⟨(1, 1, 1), (0, 1), (0, 1), (0, 1), [1], [], "raw", none, none⟩
    ⟨none, none, none, none⟩ ⟨0, 0, 0, 1/2⟩
    (by
      rw [Renderer3D.visualizeVoxels]
      rw [if_neg (by simp : ¬ (Renderer3D.OccupancyData.encoding
        ⟨(1, 1, 1), (0, 1), (0, 1), (0, 1), [1], [], "raw", none, none⟩ = "bitset"))]
      norm_num [Renderer3D.denseVoxels, Renderer3D.effectiveThreshold,
        Renderer3D.effectiveZWindow, Renderer3D.addVoxel, Renderer3D.voxelSizeZ,
        Renderer3D.nx, Renderer3D.ny, Renderer3D.nz, List.range_succ,
        List.filterMap_cons, List.filterMap_nil])

/-- C10: for every bitset volume with a recorded (nonzero) numVoxels,
no voxel is emitted for a set bit at or beyond numVoxels: every emitted
grid index re-encodes to a canonical linear index strictly below
numVoxels (padding bits in the final byte are ignored). -/
theorem claim_C10_bitset_numVoxels_bound (d : Renderer3D.OccupancyData)
    (o : Renderer3D.RenderOptions) (m : ℕ)
    (he : d.encoding = "bitset") (hm : d.numVoxels = some m) (hm0 : m ≠ 0) :
    ∀ r ∈ Renderer3D.visualizeVoxels d o,
      r.z + r.y * Renderer3D.nz d + r.x * Renderer3D.nz d * Renderer3D.ny d < m := by
  intro r hr
  have hnv : Renderer3D.effNumVoxels d = m := by
    simp [Renderer3D.effNumVoxels, hm, hm0]
  simp only [Renderer3D.visualizeVoxels, he, if_pos] at hr
  rw [hnv] at hr
  simp only [Renderer3D.bitsetVoxels, List.mem_filterMap] at hr
  obtain ⟨i, hi, hadd⟩ := hr
  obtain ⟨hx, hy, hz, _⟩ := addVoxel_some hadd
  have hi' := mem_bitsetSetIndices.mp hi
  have henc := canonical_decodeIdx (Renderer3D.ny d) (Renderer3D.nz d) i
  rw [hx, hy, hz, henc]
  exact hi'.2.2

/-- C10 witness: on a 2x2x2 bitset volume whose only set bit is linear
index 7 with numVoxels = 8, the emitted voxel (1,1,1) re-encodes below 8. -/
theorem claim_C10_bitset_numVoxels_bound_w :
    (Renderer3D.VoxelRec.mk 1 1 1 (3/2)).z +
      (Renderer3D.VoxelRec.mk 1 1 1 (3/2)).y *
        Renderer3D.nz ⟨(2, 2, 2), (0, 2), (0, 2), (0, 2), [], [128], "bitset", some 8, none⟩ +
      (Renderer3D.VoxelRec.mk 1 1 1 (3/2)).x *
        Renderer3D.nz ⟨(2, 2, 2), (0, 2), (0, 2), (0, 2), [], [128], "bitset", some 8, none⟩ *
        Renderer3D.ny ⟨(2, 2, 2), (0, 2), (0, 2), (0, 2), [], [128], "bitset", some 8, none⟩ < 8 :=
  claim_C10_bitset_numVoxels_bound
    ⟨(2, 2, 2), (0, 2), (0, 2), (0, 2), [], [128], "bitset", some 8, none⟩
    ⟨none, none, none, none⟩ 8 rfl rfl (by decide)
    ⟨1, 1, 1, 3/2⟩
    (by
      rw [Renderer3D.visualizeVoxels]
      rw [if_pos (by simp : Renderer3D.OccupancyData.encoding
        ⟨(2, 2, 2), (0, 2), (0, 2), (0, 2), [], [128], "bitset", some 8, none⟩ = "bitset")]
      have hidx : Renderer3D.bitsetSetIndices [128]
          (Renderer3D.effNumVoxels
            ⟨(2, 2, 2), (0, 2), (0, 2), (0, 2), [], [128], "bitset", some 8, none⟩) = [7] := by
        decide
      norm_num [Renderer3D.bitsetVoxels, hidx, Renderer3D.decodeIdx,
        Renderer3D.effectiveZWindow, Renderer3D.addVoxel, Renderer3D.voxelSizeZ,
        Renderer3D.nx, Renderer3D.ny, Renderer3D.nz,
        List.filterMap_cons, List.filterMap_nil])

/-- C6 counterexample: a missing / non-finite (NaN) threshold does not
make the call fail: `visualizeOccupancyWithCubes` replaces it with the
default 0.5 and produces a voxel list (here a single voxel). This refutes
the claim that a NaN threshold throws InvalidRenderOptions. -/
theorem claim_C6_counterexample :
    Renderer3D.visualizeVoxels
        ⟨(1, 1, 1), (0, 1), (0, 1), (0, 1), [1], [], "raw", none, none⟩
        ⟨none, none, none, none⟩ = [⟨0, 0, 0, 1/2⟩] ∧
      Renderer3D.effectiveThreshold ⟨none, none, none, none⟩ = 1/2 := by
  constructor
  · rw [Renderer3D.visualizeVoxels]
    rw [if_neg (by simp : ¬ (Renderer3D.OccupancyData.encoding ⟨(1, 1, 1), (0, 1), (0, 1), (0, 1), [1], [], "raw", none, none⟩ = "bitset"))]
    norm_num [Renderer3D.denseVoxels,
      Renderer3D.effectiveThreshold, Renderer3D.effectiveZWindow,
      Renderer3D.addVoxel, Renderer3D.voxelSizeZ, Renderer3D.nx, Renderer3D.ny,
      Renderer3D.nz, List.range_succ, List.filterMap_cons, List.filterMap_nil]
  · norm_num [Renderer3D.effectiveThreshold]

/-- C6 amended: the voxelization never throws; when the supplied threshold
is absent or non-finite it behaves exactly as with the default threshold
0.5 and still produces a well-defined voxel list. -/
theorem claim_C6_amended (d : Renderer3D.OccupancyData) (o : Renderer3D.RenderOptions)
    (h : o.threshold = none) :
    Renderer3D.effectiveThreshold o = 1/2 ∧
      Renderer3D.visualizeVoxels d o =
        Renderer3D.visualizeVoxels d
          ⟨some (1/2), o.zFilterMin, o.zFilterMax, o.dropTopLayers⟩ := by
  have ht : Renderer3D.effectiveThreshold o = 1/2 := by
    simp only [Renderer3D.effectiveThreshold, h, Option.getD_none]
    norm_num
  refine ⟨ht, ?_⟩
  have ht2 : Renderer3D.effectiveThreshold
      ⟨some (1/2), o.zFilterMin, o.zFilterMax, o.dropTopLayers⟩ = 1/2 := by
    simp only [Renderer3D.effectiveThreshold, Option.getD_some]
    norm_num
  have hw : Renderer3D.effectiveZWindow d o =
      Renderer3D.effectiveZWindow d
        ⟨some (1/2), o.zFilterMin, o.zFilterMax, o.dropTopLayers⟩ := rfl
  simp only [Renderer3D.visualizeVoxels, ht, ht2, hw]

/-- C6 amended witness: on a 1-voxel grid with value 1 and no threshold
option, the call equals the defaulted-threshold call and yields a voxel. -/
theorem claim_C6_amended_w :
    Renderer3D.effectiveThreshold ⟨none, none, none, none⟩ = 1/2 ∧
      Renderer3D.visualizeVoxels
          ⟨(1, 1, 1), (0, 1), (0, 1), (0, 1), [1], [], "raw", none, none⟩
          ⟨none, none, none, none⟩ =
        Renderer3D.visualizeVoxels
          ⟨(1, 1, 1), (0, 1), (0, 1), (0, 1), [1], [], "raw", none, none⟩
          ⟨some (1/2), none, none, none⟩ :=
  claim_C6_amended _ _ rfl
